import Mathlib

/-!
Verification of the one-dimensional root-finding binding (`src/types/roots.rs`)
and the interpolation wrappers (`src/interpolation.rs`).

The Rust crate is a thin binding over an external C numerical library: the
wrapper code under `src/` performs constructor dispatch, closure boxing and
trampolining, null-pointer checks and string decoding, while the iterative
algorithms themselves (`sys::gsl_root_fsolver_*`, `sys::gsl_interp_*`) live in
the external library.  Wherever a definition embeds behaviour of that external
library (or of the Rust standard library) rather than code under `src/`, its
doc comment starts with `Modelled from the spec:` and names what is missing.

Real numbers are modelled by `ℚ` (every concrete value appearing in the claims
is exactly representable in binary floating point, and the spec states its
numerical properties "up to floating point", i.e. of the ideal real-arithmetic
algorithm).
-/

namespace RustGsl

/-- Modelled from the spec: the status values of §7 returned by solver and
interpolation operations (`enums::Value` is not under `src/`; only its uses
`::Value::from(...)` are).  `Success` is the all-clear status; the other
constructors are the spec's error taxonomy. -/
inductive Value
  | Success
  | AllocationFailure
  | InvalidBracket
  | DerivativeDegenerate
  | DomainError
  deriving DecidableEq, Repr

/-- The three bracketing algorithms of the spec (§3, §6). -/
inductive BracketingAlgorithm
  | bisection
  | falsePosition
  | brent
  deriving DecidableEq, Repr

/-- The three polishing algorithms of the spec (§3, §6). -/
inductive PolishingAlgorithm
  | newton
  | secant
  | steffensen
  deriving DecidableEq, Repr

/-- `RootFSolverType` (roots.rs 50-61): an opaque handle on a bracketing
solver type of the external library, embedded by the name of the external
symbol it wraps. -/
structure RootFSolverType where
  ffiSymbol : String
  deriving DecidableEq, Repr

/-- `RootFSolverType::bisection` (roots.rs 73-75) wraps
`gsl_root_fsolver_bisection`. -/
def RootFSolverType.bisection : RootFSolverType :=
  ⟨"gsl_root_fsolver_bisection"⟩

/-- `RootFSolverType::brent` (roots.rs 89-91) wraps `gsl_root_fsolver_brent`
(note: in the source its doc comment describes false position, but the
wrapped symbol is Brent). -/
def RootFSolverType.brent : RootFSolverType :=
  ⟨"gsl_root_fsolver_brent"⟩

/-- `RootFSolverType::falsepos` (roots.rs 107-109) wraps
`gsl_root_fsolver_falsepos` (its source doc comment describes Brent, but the
wrapped symbol is false position). -/
def RootFSolverType.falsepos : RootFSolverType :=
  ⟨"gsl_root_fsolver_falsepos"⟩

/-- `RootFdfSolverType` (roots.rs 207-216): handle on a polishing solver type
of the external library. -/
structure RootFdfSolverType where
  ffiSymbol : String
  deriving DecidableEq, Repr

/-- `RootFdfSolverType::newton` (roots.rs 223-225). -/
def RootFdfSolverType.newton : RootFdfSolverType :=
  ⟨"gsl_root_fdfsolver_newton"⟩

/-- `RootFdfSolverType::secant` (roots.rs 229-231). -/
def RootFdfSolverType.secant : RootFdfSolverType :=
  ⟨"gsl_root_fdfsolver_secant"⟩

/-- `RootFdfSolverType::steffenson` (roots.rs 235-237): the library spells the
name `steffenson`, and the wrapped symbol is `gsl_root_fdfsolver_steffenson`. -/
def RootFdfSolverType.steffenson : RootFdfSolverType :=
  ⟨"gsl_root_fdfsolver_steffenson"⟩

/-- Modelled from the spec: which bracketing algorithm each external
solver-type symbol implements (§2 lists the bracketing variants implemented by
the external library; the symbols themselves are declared outside `src/`). -/
def bracketingSymbolAlgorithm (s : String) : Option BracketingAlgorithm :=
  if s = "gsl_root_fsolver_bisection" then some .bisection
  else if s = "gsl_root_fsolver_falsepos" then some .falsePosition
  else if s = "gsl_root_fsolver_brent" then some .brent
  else none

/-- Modelled from the spec: which polishing algorithm each external
solver-type symbol implements. -/
def polishingSymbolAlgorithm (s : String) : Option PolishingAlgorithm :=
  if s = "gsl_root_fdfsolver_newton" then some .newton
  else if s = "gsl_root_fdfsolver_secant" then some .secant
  else if s = "gsl_root_fdfsolver_steffenson" then some .steffensen
  else none

/-- The public constructors on `RootFSolverType` (roots.rs 63-110), by their
source-level names. -/
def rootFSolverTypeConstructors : List (String × RootFSolverType) :=
  [("bisection", RootFSolverType.bisection),
   ("brent", RootFSolverType.brent),
   ("falsepos", RootFSolverType.falsepos)]

/-- The public constructors on `RootFdfSolverType` (roots.rs 218-238), by
their source-level names. -/
def rootFdfSolverTypeConstructors : List (String × RootFdfSolverType) :=
  [("newton", RootFdfSolverType.newton),
   ("secant", RootFdfSolverType.secant),
   ("steffenson", RootFdfSolverType.steffenson)]

/-- The algorithm-kind vocabulary of the spec (§6) for bracketing solvers,
each name with the algorithm it denotes. -/
def specBracketingVocabulary : List (String × BracketingAlgorithm) :=
  [("bisection", .bisection),
   ("false_position", .falsePosition),
   ("brent", .brent)]

/-- The algorithm-kind vocabulary of the spec (§6) for polishing solvers. -/
def specPolishingVocabulary : List (String × PolishingAlgorithm) :=
  [("newton", .newton),
   ("secant", .secant),
   ("steffensen", .steffensen)]

/-- State of a bracketing solver (spec §3): the current bracketing interval
and the current best root estimate. -/
structure BState where
  lower : ℚ
  upper : ℚ
  root : ℚ
  deriving DecidableEq, Repr

/-- Modelled from the spec: the bracket precondition check performed by the
external set routines (§4.2: `set` "requires `x_lower < x_upper` and
`sign(f(x_lower)) != sign(f(x_upper))`"; §7/§8: a violation is reported as
`InvalidBracket` at `set`).  A sign change is absent exactly when
`f lo * f hi > 0` (an endpoint evaluating to zero counts as a sign change). -/
def bracketCheck (f : ℚ → ℚ) (xLower xUpper : ℚ) : Value :=
  if xUpper ≤ xLower then .InvalidBracket
  else if 0 < f xLower * f xUpper then .InvalidBracket
  else .Success

/-- Modelled from the spec: `gsl_root_fsolver_set` for the memoryless
bracketing algorithms (bisection and false position), called by
`RootFSolver::set` (roots.rs 156).  It validates the bracket and initialises
the interval; the initial root estimate is the midpoint of the interval
(roots.rs 72: "the current estimate of the root is taken as the midpoint of
the interval"). -/
def fsolverSet (f : ℚ → ℚ) (xLower xUpper : ℚ) : Value × BState :=
  (bracketCheck f xLower xUpper, ⟨xLower, xUpper, (xLower + xUpper) / 2⟩)

/-- Modelled from the spec: one bisection iteration (§4.2): "midpoint
m = (lower+upper)/2; evaluate f(m); discard the half-interval whose endpoint
shares sign with f(m); new root_estimate = new midpoint". -/
def bisectionStep (f : ℚ → ℚ) (s : BState) : BState :=
  let m := (s.lower + s.upper) / 2
  if 0 < f m * f s.lower then
    ⟨m, s.upper, (m + s.upper) / 2⟩
  else
    ⟨s.lower, m, (s.lower + m) / 2⟩

/-- Modelled from the spec: one false-position iteration (§4.2): "compute the
secant-line x-intercept m between (lower, f(lower)) and (upper, f(upper));
evaluate f(m); replace whichever endpoint has f of the same sign as f(m);
root_estimate = m".  When `f(m) = 0` the root has been located exactly and the
interval collapses onto it; when the two endpoint values coincide the secant
line is degenerate, which §4.2 classifies as a failure signalled to the caller
with the state left unchanged. -/
def falsePositionStep (f : ℚ → ℚ) (s : BState) : BState :=
  let fl := f s.lower
  let fu := f s.upper
  if fu = fl then s
  else
    let m := (s.lower * fu - s.upper * fl) / (fu - fl)
    let fm := f m
    if fm = 0 then ⟨m, m, m⟩
    else if 0 < fm * fl then ⟨m, s.upper, m⟩
    else ⟨s.lower, m, m⟩

/-- State of a Brent solver: the bracketing state plus the last three sample
points (spec §3: "Brent's method additionally retains the last three (x, f(x))
sample points to build an inverse-quadratic interpolant"). -/
structure BrentState where
  lower : ℚ
  upper : ℚ
  root : ℚ
  p1 : ℚ × ℚ
  p2 : ℚ × ℚ
  p3 : ℚ × ℚ
  deriving DecidableEq, Repr

/-- The x-intercept of the inverse quadratic interpolant through three sample
points (Lagrange form). -/
def invQuadCandidate (p1 p2 p3 : ℚ × ℚ) : ℚ :=
  p1.1 * p2.2 * p3.2 / ((p1.2 - p2.2) * (p1.2 - p3.2)) +
  p2.1 * p1.2 * p3.2 / ((p2.2 - p1.2) * (p2.2 - p3.2)) +
  p3.1 * p1.2 * p2.2 / ((p3.2 - p1.2) * (p3.2 - p2.2))

/-- Modelled from the spec: one Brent iteration (§4.2): "attempt inverse
quadratic interpolation through [the last three points] to produce a candidate
root; accept the candidate only if it falls strictly within the current
bracket and is making adequate progress [...] — otherwise fall back to a
bisection step; update bracket and estimate from whichever step was taken".
The adequate-progress safeguard is represented by the candidate moving by at
most half the current bracket width; the claims about bracket containment rely
only on the strictly-within-bracket guard, not on the safeguard's exact
form. -/
def brentStep (f : ℚ → ℚ) (s : BrentState) : BrentState :=
  let c := invQuadCandidate s.p1 s.p2 s.p3
  let m :=
    if s.lower < c ∧ c < s.upper ∧ |c - s.root| ≤ (s.upper - s.lower) / 2 then c
    else (s.lower + s.upper) / 2
  let fm := f m
  if 0 < fm * f s.lower then
    ⟨m, s.upper, m, s.p2, s.p3, (m, fm)⟩
  else
    ⟨s.lower, m, m, s.p2, s.p3, (m, fm)⟩

/-- Modelled from the spec: `gsl_root_fsolver_set` for Brent: the same bracket
validation, with the sample-point memory seeded from the endpoints (§4.2: the
first interpolant is built from the two endpoints). -/
def brentSet (f : ℚ → ℚ) (xLower xUpper : ℚ) : Value × BrentState :=
  (bracketCheck f xLower xUpper,
   ⟨xLower, xUpper, (xLower + xUpper) / 2,
    (xLower, f xLower), (xUpper, f xUpper), (xUpper, f xUpper)⟩)

/-- A wrapped bracketing solver (roots.rs 112-116): the solver type it was
allocated for and the externally held solver state. -/
structure RootFSolver where
  typ : RootFSolverType
  state : BState
  deriving DecidableEq, Repr

/-- `RootFSolver::new` (roots.rs 124-132): the external allocator either
fails (a null pointer, embedded as `none`) or yields fresh solver state; the
wrapper returns `None` exactly on the null pointer and otherwise wraps the
allocation.  Nothing besides the allocation result enters the decision. -/
def RootFSolver.new (t : RootFSolverType) (allocated : Option BState) :
    Option RootFSolver :=
  match allocated with
  | none => none
  | some st => some ⟨t, st⟩

/-- Modelled from the spec: the name string the external library attaches to
each bracketing solver type, returned by `gsl_root_fsolver_name` (§4.2 lists
`name` among the pure accessors; the string itself lives outside src/). -/
def gslBracketingName (t : RootFSolverType) : String :=
  if t = RootFSolverType.bisection then "bisection"
  else if t = RootFSolverType.falsepos then "falsepos"
  else "brent"

/-- `RootFSolver::root` (roots.rs 190-192), in state-passing form: reads the
current root estimate from the solver state (`gsl_root_fsolver_root` is a pure
field read, modelled from the spec §4.2) and hands the state back
untouched (`&self`). -/
def RootFSolver.root (s : RootFSolver) : ℚ × RootFSolver :=
  (s.state.root, s)

/-- `RootFSolver::x_lower` (roots.rs 196-198), in state-passing form. -/
def RootFSolver.x_lower (s : RootFSolver) : ℚ × RootFSolver :=
  (s.state.lower, s)

/-- `RootFSolver::x_upper` (roots.rs 202-204), in state-passing form. -/
def RootFSolver.x_upper (s : RootFSolver) : ℚ × RootFSolver :=
  (s.state.upper, s)

/-- `RootFSolver::name` (roots.rs 180-186), in state-passing form: decodes the
solver type's name string and hands the state back untouched. -/
def RootFSolver.name (s : RootFSolver) : String × RootFSolver :=
  (gslBracketingName s.typ, s)

/-- State of a polishing solver (spec §3): the current single-point root
estimate (algorithm-specific history is irrelevant to the claims below). -/
structure FdfState where
  root : ℚ
  deriving DecidableEq, Repr

/-- A wrapped polishing solver (roots.rs 240-244). -/
structure RootFdfSolver where
  typ : RootFdfSolverType
  state : FdfState
  deriving DecidableEq, Repr

/-- `RootFdfSolver::new` (roots.rs 253-261): same null-check shape as
`RootFSolver::new`. -/
def RootFdfSolver.new (t : RootFdfSolverType) (allocated : Option FdfState) :
    Option RootFdfSolver :=
  match allocated with
  | none => none
  | some st => some ⟨t, st⟩

/-- `RootFdfSolver::root` (roots.rs 376-378), in state-passing form. -/
def RootFdfSolver.root (s : RootFdfSolver) : ℚ × RootFdfSolver :=
  (s.state.root, s)

/-! ### Closure lifetime across `set` and `iterate`

`RootFSolver::set` boxes the user closure, passes the raw pointer to the
external set routine, and then reclaims the box before returning
(roots.rs 146-158); `RootFdfSolver::set` does the same for its three closures
(roots.rs 303-336).  The events below record what happens to the boxed
closure's storage. -/

/-- An event in the life of a boxed closure: its allocation, an invocation
through the raw pointer, or the reclamation of its storage. -/
inductive HeapEvent
  | alloc (id : Nat)
  | invoke (id : Nat)
  | free (id : Nat)
  deriving DecidableEq, Repr

/-- The params pointer the external solver retains after `set` (modelled from
the spec §4.1: bind "captures an arbitrary closure-like callable [...] and
stores it so that later numerical code can invoke it"). -/
structure ClosureBinding where
  storedParams : Option Nat
  deriving DecidableEq, Repr

/-- `RootFSolver::set` (roots.rs 137-161) at the closure-storage level: the
closure is boxed (`Box::into_raw`, event `alloc`), the external set routine
records the raw pointer in the solver and evaluates the function at both
endpoints through it (modelled from the spec §4.2, events `invoke`), and
before `set` returns the box is reclaimed (`Box::from_raw(params)`,
roots.rs 158, event `free`). -/
def setClosureEvents (id : Nat) : ClosureBinding × List HeapEvent :=
  (⟨some id⟩, [.alloc id, .invoke id, .invoke id, .free id])

/-- `RootFSolver::iterate` (roots.rs 174-176) at the closure-storage level:
the external iterate routine evaluates the bound function through the params
pointer stored at `set` (modelled from the spec §4.2: every step evaluates
f). -/
def iterateClosureEvents (b : ClosureBinding) : ClosureBinding × List HeapEvent :=
  (b, match b.storedParams with
      | some id => [.invoke id]
      | none => [])

/-- The closure-storage events of `n` consecutive `iterate` calls. -/
def runIterates : Nat → ClosureBinding → ClosureBinding × List HeapEvent
  | 0, b => (b, [])
  | n + 1, b =>
    let step := iterateClosureEvents b
    let rest := runIterates n step.1
    (rest.1, step.2 ++ rest.2)

/-- The closure-storage trace of one `set` followed by `n` `iterate` calls. -/
def setThenIterateTrace (id n : Nat) : List HeapEvent :=
  (setClosureEvents id).2 ++ (runIterates n (setClosureEvents id).1).2

/-- Scans a trace and reports whether some closure is invoked at a point of
the trace after its storage has been freed. -/
def invokesFreed : List HeapEvent → List Nat → Bool
  | [], _ => false
  | .alloc _ :: rest, freed => invokesFreed rest freed
  | .free id :: rest, freed => invokesFreed rest (id :: freed)
  | .invoke id :: rest, freed => freed.contains id || invokesFreed rest freed

/-- A trace contains a use-after-free: an invocation of a closure after the
event freeing its storage. -/
def useAfterFree (tr : List HeapEvent) : Bool :=
  invokesFreed tr []

/-! ### The `RootFdfSolver::set` trampolines -/

/-- The params tuple built in `RootFdfSolver::set` (roots.rs 304-312): raw
pointers to the three separately boxed closures `f`, `df`, `fdf`, embedded as
the closures themselves.  The `FDF` closure writes its results through two
`&mut f64` out-parameters, embedded as a returned pair `(y, dy)`. -/
def FdfParams : Type :=
  (ℚ → ℚ) × (ℚ → ℚ) × (ℚ → ℚ × ℚ)

/-- `inner_f` (roots.rs 273-281): the value trampoline reads tuple field 0 of
the params and applies it to `x`. -/
def inner_f (x : ℚ) (params : FdfParams) : ℚ :=
  params.1 x

/-- `inner_df` (roots.rs 282-290): the derivative trampoline reads tuple
field 1 and applies it to `x`. -/
def inner_df (x : ℚ) (params : FdfParams) : ℚ :=
  params.2.1 x

/-- `inner_fdf` (roots.rs 291-301): the combined trampoline reads tuple
field 2 and applies it to `x`, producing the pair written through `y` and
`dy`. -/
def inner_fdf (x : ℚ) (params : FdfParams) : ℚ × ℚ :=
  params.2.2 x

/-! ### Interpolation evaluation -/

/-- A double that is either the not-a-number sentinel or an ordinary value
(floating-point rounding is not modelled; NaN-ness is what the claims are
about). -/
inductive GslFloat
  | nan
  | fin (val : ℚ)
  deriving DecidableEq, Repr

/-- Modelled from the spec: evaluation of the interpolant at an in-range
point, represented by the piecewise-linear interpolant through the table
(§4.4 leaves the concrete interpolation formula to the external library; the
claims constrain only the out-of-range behaviour). -/
def linInterp : List ℚ → List ℚ → ℚ → ℚ
  | x0 :: x1 :: xs, y0 :: y1 :: ys, x =>
    if x ≤ x1 then y0 + (y1 - y0) * (x - x0) / (x1 - x0)
    else linInterp (x1 :: xs) (y1 :: ys) x
  | _ :: [], y0 :: _, _ => y0
  | _, _, _ => 0

namespace interpolation

/-- Modelled from the spec: `gsl_interp_eval_e`, wrapped by
`interpolation::eval_e` (interpolation.rs 33-52): "Out-of-range `x` yields a
domain-error signal and a propagated not-a-number sentinel, not a crash"
(§4.4); in range it produces the interpolated value.  The search accelerator
is omitted: it is an opaque cache affecting only lookup speed (§4.4). -/
def eval_e (xa ya : List ℚ) (x : ℚ) : Value × GslFloat :=
  match xa.head?, xa.getLast? with
  | some lo, some hi =>
    if x < lo ∨ hi < x then (.DomainError, .nan)
    else (.Success, .fin (linInterp xa ya x))
  | _, _ => (.DomainError, .nan)

/-- `interpolation::eval` (interpolation.rs 16-26): returns only the value;
on a domain error the not-a-number sentinel is what the caller receives. -/
def eval (xa ya : List ℚ) (x : ℚ) : GslFloat :=
  (eval_e xa ya x).2

end interpolation

/-! ### Name-string decoding

`RootFdfSolver::name` (roots.rs 356-372) and `RootFSolver::name`
(roots.rs 180-186) decode the C string returned by the external library.  The
decoders below embed the Rust standard library's UTF-8 semantics
(`str::from_utf8` and `String::from_utf8_lossy`), which live outside `src/`.
Bytes are `Nat`s below `256`; decoded strings are code-point sequences. -/

/-- A UTF-8 continuation byte (`0x80`-`0xBF`). -/
def isCont (b : Nat) : Bool :=
  0x80 ≤ b && b < 0xC0

/-- Admissible second bytes of a three-byte sequence for lead byte `b`
(excluding overlong encodings for `0xE0` and surrogates for `0xED`). -/
def utf8Second3 (b b2 : Nat) : Bool :=
  if b = 0xE0 then 0xA0 ≤ b2 && b2 < 0xC0
  else if b = 0xED then 0x80 ≤ b2 && b2 < 0xA0
  else isCont b2

/-- Admissible second bytes of a four-byte sequence for lead byte `b`
(excluding overlong encodings for `0xF0` and values above U+10FFFF for
`0xF4`). -/
def utf8Second4 (b b2 : Nat) : Bool :=
  if b = 0xF0 then 0x90 ≤ b2 && b2 < 0xC0
  else if b = 0xF4 then 0x80 ≤ b2 && b2 < 0x90
  else isCont b2

/-- Modelled from the spec: one step of Rust's UTF-8 validation/decoding —
decode the code point starting at the head of the byte list, returning it with
the remaining bytes, or `none` if no valid encoded code point starts there. -/
def utf8Step : List Nat → Option (Nat × List Nat)
  | [] => none
  | b :: rest =>
    if b < 0x80 then some (b, rest)
    else if 0xC2 ≤ b && b ≤ 0xDF then
      match rest with
      | b2 :: r =>
        if isCont b2 then some ((b - 0xC0) * 0x40 + (b2 - 0x80), r) else none
      | [] => none
    else if 0xE0 ≤ b && b ≤ 0xEF then
      match rest with
      | b2 :: b3 :: r =>
        if utf8Second3 b b2 && isCont b3 then
          some (((b - 0xE0) * 0x40 + (b2 - 0x80)) * 0x40 + (b3 - 0x80), r)
        else none
      | _ => none
    else if 0xF0 ≤ b && b ≤ 0xF4 then
      match rest with
      | b2 :: b3 :: b4 :: r =>
        if utf8Second4 b b2 && isCont b3 && isCont b4 then
          some (((((b - 0xF0) * 0x40 + (b2 - 0x80)) * 0x40 + (b3 - 0x80)) * 0x40
                 + (b4 - 0x80)), r)
        else none
      | _ => none
    else none

/-- Strict decoding with a fuel bound (the fuel is only a termination device;
`utf8DecodeStrict` supplies enough for the whole list): `none` as soon as a
step fails, the code points otherwise. -/
def utf8DecodeFuelled : Nat → List Nat → Option (List Nat)
  | _, [] => some []
  | 0, _ :: _ => none
  | fuel + 1, b :: rest =>
    match utf8Step (b :: rest) with
    | none => none
    | some (c, r) => (utf8DecodeFuelled fuel r).map (c :: ·)

/-- Modelled from the spec: Rust's `str::from_utf8` — `none` exactly when the
bytes are not valid UTF-8, otherwise the decoded code points. -/
def utf8DecodeStrict (l : List Nat) : Option (List Nat) :=
  utf8DecodeFuelled l.length l

/-- Lossy decoding with a fuel bound: a failing step contributes the
replacement character U+FFFD and resumes after the offending byte. -/
def utf8LossyFuelled : Nat → List Nat → List Nat
  | _, [] => []
  | 0, _ :: _ => []
  | fuel + 1, b :: rest =>
    match utf8Step (b :: rest) with
    | none => 0xFFFD :: utf8LossyFuelled fuel rest
    | some (c, r) => c :: utf8LossyFuelled fuel r

/-- Modelled from the spec: Rust's `String::from_utf8_lossy` — total, every
byte of valid UTF-8 decoded as is and invalid bytes replaced by U+FFFD (the
granularity of replacement within an invalid sequence is abbreviated to one
replacement per rejected byte; on valid input it agrees with the strict
decoder, which is all the claims rely on). -/
def utf8DecodeLossy (l : List Nat) : List Nat :=
  utf8LossyFuelled l.length l

/-- The bytes are valid UTF-8 (in the sense of the strict decoder). -/
def validUtf8 (l : List Nat) : Bool :=
  (utf8DecodeStrict l).isSome

/-- The bytes of a NUL-terminated C string: everything before the first zero
byte (`CStr::from_ptr(..).to_bytes()` in roots.rs 184; the explicit
`while *ptr.add(len) != 0` scan in roots.rs 364-367). -/
def cstrBytes (l : List Nat) : List Nat :=
  l.takeWhile (fun b => b != 0)

/-- `RootFdfSolver::name` (roots.rs 356-372) at the byte level: a null name
pointer (`none`) yields `None` (roots.rs 360-362); otherwise the bytes up to
the NUL terminator are decoded strictly and invalid UTF-8 yields `None`
(`str::from_utf8(slice).ok()`, roots.rs 370). -/
def fdfSolverNameDecode (p : Option (List Nat)) : Option (List Nat) :=
  match p with
  | none => none
  | some bytes => utf8DecodeStrict (cstrBytes bytes)

/-- `RootFSolver::name` (roots.rs 180-186) at the byte level: the pointer is
assumed non-null (`CStr::from_ptr`), and the bytes up to the NUL terminator
are decoded lossily (`String::from_utf8_lossy`), always yielding a string. -/
def fSolverNameDecode (bytes : List Nat) : List Nat :=
  utf8DecodeLossy (cstrBytes bytes)

/-! ## Helper lemmas -/

/-- A successful bracket check means a proper interval and no uniform sign. -/
theorem bracketCheck_eq_success {f : ℚ → ℚ} {lo hi : ℚ}
    (h : bracketCheck f lo hi = Value.Success) : lo < hi ∧ f lo * f hi ≤ 0 := by
  unfold bracketCheck at h
  split at h
  · simp at h
  · split at h
    · simp at h
    · next h1 h2 => exact ⟨not_le.mp h1, not_lt.mp h2⟩

/-- The secant-line x-intercept of a bracketing interval lies inside the
interval when the endpoint values do not share a strict sign. -/
theorem secantIntercept_bounds {l u fl fu : ℚ} (hlu : l ≤ u) (hsign : fl * fu ≤ 0)
    (hne : fu ≠ fl) :
    l ≤ (l * fu - u * fl) / (fu - fl) ∧ (l * fu - u * fl) / (fu - fl) ≤ u := by
  have hd : fu - fl ≠ 0 := sub_ne_zero.mpr hne
  have h1 : (l * fu - u * fl) / (fu - fl) - l = (-fl) * (u - l) / (fu - fl) := by
    field_simp
    ring
  have h2 : u - (l * fu - u * fl) / (fu - fl) = fu * (u - l) / (fu - fl) := by
    field_simp
    ring
  rcases mul_nonpos_iff.mp hsign with ⟨ha, hb⟩ | ⟨ha, hb⟩
  · have hlt : fu - fl < 0 := by
      rcases lt_or_eq_of_le (hb.trans ha) with h | h
      · linarith
      · exact absurd h hne
    constructor
    · have : 0 ≤ (-fl) * (u - l) / (fu - fl) :=
        div_nonneg_of_nonpos (by nlinarith) hlt.le
      linarith [h1 ▸ this]
    · have : 0 ≤ fu * (u - l) / (fu - fl) :=
        div_nonneg_of_nonpos (by nlinarith) hlt.le
      linarith [h2 ▸ this]
  · have hlt : 0 < fu - fl := by
      rcases lt_or_eq_of_le (ha.trans hb) with h | h
      · linarith
      · exact absurd h.symm hne
    constructor
    · have : 0 ≤ (-fl) * (u - l) / (fu - fl) :=
        div_nonneg (by nlinarith) hlt.le
      linarith [h1 ▸ this]
    · have : 0 ≤ fu * (u - l) / (fu - fl) :=
        div_nonneg (by nlinarith) hlt.le
      linarith [h2 ▸ this]

/-- A bisection step keeps a proper interval and keeps the root estimate
inside it. -/
theorem bisectionStep_inv (f : ℚ → ℚ) {s : BState} (h : s.lower ≤ s.upper) :
    (bisectionStep f s).lower ≤ (bisectionStep f s).upper ∧
    (bisectionStep f s).lower ≤ (bisectionStep f s).root ∧
    (bisectionStep f s).root ≤ (bisectionStep f s).upper := by
  simp only [bisectionStep]
  split
  · refine ⟨by dsimp; linarith, by dsimp; linarith, by dsimp; linarith⟩
  · refine ⟨by dsimp; linarith, by dsimp; linarith, by dsimp; linarith⟩

/-- A bisection step halves the interval width exactly. -/
theorem bisectionStep_width (f : ℚ → ℚ) (s : BState) :
    (bisectionStep f s).upper - (bisectionStep f s).lower = (s.upper - s.lower) / 2 := by
  simp only [bisectionStep]
  split
  · dsimp; ring
  · dsimp; ring

/-- A false-position step preserves the bracketing invariant: proper interval,
contained root estimate, and no uniform sign at the endpoints. -/
theorem falsePositionStep_inv (f : ℚ → ℚ) {s : BState}
    (h1 : s.lower ≤ s.upper) (h2 : s.lower ≤ s.root) (h3 : s.root ≤ s.upper)
    (h4 : f s.lower * f s.upper ≤ 0) :
    (falsePositionStep f s).lower ≤ (falsePositionStep f s).upper ∧
    (falsePositionStep f s).lower ≤ (falsePositionStep f s).root ∧
    (falsePositionStep f s).root ≤ (falsePositionStep f s).upper ∧
    f (falsePositionStep f s).lower * f (falsePositionStep f s).upper ≤ 0 := by
  simp only [falsePositionStep]
  split
  · exact ⟨h1, h2, h3, h4⟩
  · next hne =>
    have hb := secantIntercept_bounds h1 h4 hne
    split
    · next hz =>
      refine ⟨le_refl _, le_refl _, le_refl _, ?_⟩
      dsimp
      rw [hz]
      simp
    · next hz =>
      split
      · next hpos =>
        refine ⟨by dsimp; exact hb.2, le_refl _, by dsimp; exact hb.2, ?_⟩
        dsimp
        set fm := f ((s.lower * f s.upper - s.upper * f s.lower) / (f s.upper - f s.lower)) with hfm
        nlinarith [mul_nonneg (sq_nonneg fm) (neg_nonneg.mpr h4), hpos]
      · next hpos =>
        push_neg at hpos
        refine ⟨by dsimp; exact hb.1, by dsimp; exact hb.1, le_refl _, ?_⟩
        dsimp
        linarith [mul_comm (f ((s.lower * f s.upper - s.upper * f s.lower) / (f s.upper - f s.lower))) (f s.lower)]

/-- A Brent step keeps a proper interval and keeps the root estimate inside
it: the interpolation candidate is guarded to lie strictly inside the bracket,
and the fallback midpoint always does. -/
theorem brentStep_inv (f : ℚ → ℚ) {s : BrentState} (h : s.lower ≤ s.upper) :
    (brentStep f s).lower ≤ (brentStep f s).upper ∧
    (brentStep f s).lower ≤ (brentStep f s).root ∧
    (brentStep f s).root ≤ (brentStep f s).upper := by
  simp only [brentStep]
  split
  · next hg =>
    have h1 : s.lower ≤ invQuadCandidate s.p1 s.p2 s.p3 := hg.1.le
    have h2 : invQuadCandidate s.p1 s.p2 s.p3 ≤ s.upper := hg.2.1.le
    split
    · refine ⟨?_, ?_, ?_⟩ <;> dsimp
      · exact h2
      · exact le_refl _
      · exact h2
    · refine ⟨?_, ?_, ?_⟩ <;> dsimp
      · exact h1
      · exact h1
      · exact le_refl _
  · split
    · refine ⟨?_, ?_, ?_⟩ <;> dsimp <;> linarith
    · refine ⟨?_, ?_, ?_⟩ <;> dsimp <;> linarith

/-- The bisection invariant is preserved by any number of iterations. -/
theorem bisection_iter_inv (f : ℚ → ℚ) (n : ℕ) {s : BState}
    (h : s.lower ≤ s.upper ∧ s.lower ≤ s.root ∧ s.root ≤ s.upper) :
    ((bisectionStep f)^[n] s).lower ≤ ((bisectionStep f)^[n] s).upper ∧
    ((bisectionStep f)^[n] s).lower ≤ ((bisectionStep f)^[n] s).root ∧
    ((bisectionStep f)^[n] s).root ≤ ((bisectionStep f)^[n] s).upper := by
  induction n with
  | zero => simpa using h
  | succ n ih =>
    rw [Function.iterate_succ_apply']
    exact bisectionStep_inv f ih.1

/-- After `n` bisection iterations the width is divided by `2 ^ n` exactly. -/
theorem bisection_iter_width (f : ℚ → ℚ) (n : ℕ) (s : BState) :
    ((bisectionStep f)^[n] s).upper - ((bisectionStep f)^[n] s).lower =
      (s.upper - s.lower) / 2 ^ n := by
  induction n with
  | zero => simp
  | succ n ih =>
    rw [Function.iterate_succ_apply', bisectionStep_width, ih]
    ring

/-- The false-position invariant is preserved by any number of iterations. -/
theorem falsePos_iter_inv (f : ℚ → ℚ) (n : ℕ) {s : BState}
    (h : s.lower ≤ s.upper ∧ s.lower ≤ s.root ∧ s.root ≤ s.upper ∧
      f s.lower * f s.upper ≤ 0) :
    ((falsePositionStep f)^[n] s).lower ≤ ((falsePositionStep f)^[n] s).upper ∧
    ((falsePositionStep f)^[n] s).lower ≤ ((falsePositionStep f)^[n] s).root ∧
    ((falsePositionStep f)^[n] s).root ≤ ((falsePositionStep f)^[n] s).upper ∧
    f ((falsePositionStep f)^[n] s).lower * f ((falsePositionStep f)^[n] s).upper ≤ 0 := by
  induction n with
  | zero => simpa using h
  | succ n ih =>
    rw [Function.iterate_succ_apply']
    exact falsePositionStep_inv f ih.1 ih.2.1 ih.2.2.1 ih.2.2.2

/-- The Brent invariant is preserved by any number of iterations. -/
theorem brent_iter_inv (f : ℚ → ℚ) (n : ℕ) {s : BrentState}
    (h : s.lower ≤ s.upper ∧ s.lower ≤ s.root ∧ s.root ≤ s.upper) :
    ((brentStep f)^[n] s).lower ≤ ((brentStep f)^[n] s).upper ∧
    ((brentStep f)^[n] s).lower ≤ ((brentStep f)^[n] s).root ∧
    ((brentStep f)^[n] s).root ≤ ((brentStep f)^[n] s).upper := by
  induction n with
  | zero => simpa using h
  | succ n ih =>
    rw [Function.iterate_succ_apply']
    exact brentStep_inv f ih.1

set_option maxRecDepth 4096 in
/-- A successful UTF-8 step consumes at least one byte. -/
theorem utf8Step_length {l : List ℕ} {c : ℕ} {r : List ℕ}
    (h : utf8Step l = some (c, r)) : r.length < l.length := by
  match l with
  | [] => simp [utf8Step] at h
  | b :: rest =>
    simp only [utf8Step] at h
    split at h
    · cases h
      simp
    · split at h
      · split at h
        · split at h
          · cases h
            simp
            omega
          · cases h
        · cases h
      · split at h
        · split at h
          · split at h
            · cases h
              simp
              omega
            · cases h
          · cases h
        · split at h
          · split at h
            · split at h
              · cases h
                simp
                omega
              · cases h
            · cases h
          · cases h

/-- On input the strict decoder accepts, the lossy decoder produces the same
code points (for any sufficient fuel on either side). -/
theorem utf8Fuel_agree (fuelS : ℕ) :
    ∀ (l : List ℕ) (fuelL : ℕ) (cs : List ℕ), l.length ≤ fuelS → l.length ≤ fuelL →
      utf8DecodeFuelled fuelS l = some cs → utf8LossyFuelled fuelL l = cs := by
  induction fuelS with
  | zero =>
    intro l fuelL cs h1 h2 h3
    match l with
    | [] =>
      simp only [utf8DecodeFuelled, Option.some.injEq] at h3
      simp only [utf8LossyFuelled]
      exact h3
    | b :: rest => simp at h1
  | succ n ih =>
    intro l fuelL cs h1 h2 h3
    match l with
    | [] =>
      simp only [utf8DecodeFuelled, Option.some.injEq] at h3
      simp only [utf8LossyFuelled]
      exact h3
    | b :: rest =>
      obtain ⟨m, rfl⟩ : ∃ m, fuelL = m + 1 := by
        cases fuelL
        · simp at h2
        · exact ⟨_, rfl⟩
      simp only [utf8DecodeFuelled] at h3
      simp only [utf8LossyFuelled]
      cases hstep : utf8Step (b :: rest) with
      | none =>
        simp only [hstep] at h3
        exact absurd h3 (by simp)
      | some cr =>
        obtain ⟨c, r⟩ := cr
        simp only [hstep] at h3
        simp only [hstep]
        have hlen := utf8Step_length hstep
        simp only [List.length_cons] at hlen h1 h2
        rw [Option.map_eq_some'] at h3
        obtain ⟨cs', hdec, hcs⟩ := h3
        subst hcs
        rw [ih r m cs' (by omega) (by omega) hdec]

/-! ## Claim theorems -/

/-- C1: the claim says the bound closure is never invoked after its resources
are released — every invocation by a later `iterate` happens before the
closure's storage is released.  The code violates this: `RootFSolver::set`
reclaims the boxed closure before returning (`Box::from_raw(params)`,
roots.rs 158, against its own comment "We free the closure now that we're done
using it") while the solver retains the raw params pointer, so the very next
`iterate` invokes the closure after its storage was freed.  This theorem
evaluates the embedded closure-storage trace of `set` followed by one
`iterate` at the failing input: the binding is still stored when `set`
returns, and the trace contains a use-after-free. -/
theorem closure_invoked_after_free :
    (setClosureEvents 0).1.storedParams = some 0 ∧
    useAfterFree (setThenIterateTrace 0 1) = true := ⟨rfl, by decide⟩

/-- C2: a `set` whose interval has no sign change reports `InvalidBracket` to
the caller (for every bracketing solver kind, already at `set`); concretely,
on f(x) = x² − 2 the bracket [1, 2] is accepted and the bracket [2, 3] is
rejected with `InvalidBracket`. -/
theorem invalid_bracket_reported :
    (∀ (f : ℚ → ℚ) (lo hi : ℚ), lo < hi → 0 < f lo * f hi →
        (fsolverSet f lo hi).1 = Value.InvalidBracket ∧
        (brentSet f lo hi).1 = Value.InvalidBracket) ∧
    (fsolverSet (fun x => x * x - 2) 1 2).1 = Value.Success ∧
    (fsolverSet (fun x => x * x - 2) 2 3).1 = Value.InvalidBracket := by
  refine ⟨fun f lo hi h1 h2 => ?_, by norm_num [fsolverSet, bracketCheck],
    by norm_num [fsolverSet, bracketCheck]⟩
  have hc : bracketCheck f lo hi = Value.InvalidBracket := by
    unfold bracketCheck
    rw [if_neg (not_le.mpr h1), if_pos h2]
  exact ⟨hc, hc⟩

/-- C2 witness: the general part of `invalid_bracket_reported` applied to
f(x) = x² − 2 on [2, 3] (f(2) = 2, f(3) = 7, no sign change). -/
theorem invalid_bracket_reported_witness :
    (fsolverSet (fun x => x * x - 2) 2 3).1 = Value.InvalidBracket ∧
    (brentSet (fun x => x * x - 2) 2 3).1 = Value.InvalidBracket :=
  invalid_bracket_reported.1 (fun x => x * x - 2) 2 3 (by norm_num) (by norm_num)

/-- C3 counterexample: the claim requires a public constructor *of that name*
for each spec vocabulary name, but the source names the false-position
constructor `falsepos` (roots.rs 107) and the Steffensen constructor
`steffenson` (roots.rs 235): there is no constructor named `false_position`
and none named `steffensen`. -/
theorem spec_vocabulary_names_cex :
    "false_position" ∉ rootFSolverTypeConstructors.map Prod.fst ∧
    "steffensen" ∉ rootFdfSolverTypeConstructors.map Prod.fst := by decide

/-- C3 (amended): the stable public vocabulary is `bisection`, `brent`,
`falsepos` for bracketing and `newton`, `secant`, `steffenson` for polishing
(`falsepos` abbreviating false_position and `steffenson` being the library's
spelling of steffensen); each constructor yields the solver type implementing
the algorithm its name denotes, and every algorithm of the spec's enumeration
is covered by exactly these constructors. -/
theorem constructors_denote_algorithms :
    bracketingSymbolAlgorithm RootFSolverType.bisection.ffiSymbol = some BracketingAlgorithm.bisection ∧
    bracketingSymbolAlgorithm RootFSolverType.brent.ffiSymbol = some BracketingAlgorithm.brent ∧
    bracketingSymbolAlgorithm RootFSolverType.falsepos.ffiSymbol = some BracketingAlgorithm.falsePosition ∧
    polishingSymbolAlgorithm RootFdfSolverType.newton.ffiSymbol = some PolishingAlgorithm.newton ∧
    polishingSymbolAlgorithm RootFdfSolverType.secant.ffiSymbol = some PolishingAlgorithm.secant ∧
    polishingSymbolAlgorithm RootFdfSolverType.steffenson.ffiSymbol = some PolishingAlgorithm.steffensen ∧
    (∀ a : BracketingAlgorithm, ∃ p, p ∈ rootFSolverTypeConstructors ∧
        bracketingSymbolAlgorithm p.2.ffiSymbol = some a) ∧
    (∀ a : PolishingAlgorithm, ∃ p, p ∈ rootFdfSolverTypeConstructors ∧
        polishingSymbolAlgorithm p.2.ffiSymbol = some a) := by
  refine ⟨by decide, by decide, by decide, by decide, by decide, by decide, ?_, ?_⟩
  · intro a
    cases a
    · exact ⟨("bisection", RootFSolverType.bisection), by decide⟩
    · exact ⟨("falsepos", RootFSolverType.falsepos), by decide⟩
    · exact ⟨("brent", RootFSolverType.brent), by decide⟩
  · intro a
    cases a
    · exact ⟨("newton", RootFdfSolverType.newton), by decide⟩
    · exact ⟨("secant", RootFdfSolverType.secant), by decide⟩
    · exact ⟨("steffenson", RootFdfSolverType.steffenson), by decide⟩

/-- C4: for every bracketing solver (bisection, false position, Brent), after
a valid `set` and any number of `iterate` calls the root estimate lies within
the closed interval [x_lower, x_upper]. -/
theorem bracketing_root_in_bracket :
    (∀ (f : ℚ → ℚ) (lo hi : ℚ) (n : ℕ), (fsolverSet f lo hi).1 = Value.Success →
        ((bisectionStep f)^[n] (fsolverSet f lo hi).2).lower ≤
          ((bisectionStep f)^[n] (fsolverSet f lo hi).2).root ∧
        ((bisectionStep f)^[n] (fsolverSet f lo hi).2).root ≤
          ((bisectionStep f)^[n] (fsolverSet f lo hi).2).upper) ∧
    (∀ (f : ℚ → ℚ) (lo hi : ℚ) (n : ℕ), (fsolverSet f lo hi).1 = Value.Success →
        ((falsePositionStep f)^[n] (fsolverSet f lo hi).2).lower ≤
          ((falsePositionStep f)^[n] (fsolverSet f lo hi).2).root ∧
        ((falsePositionStep f)^[n] (fsolverSet f lo hi).2).root ≤
          ((falsePositionStep f)^[n] (fsolverSet f lo hi).2).upper) ∧
    (∀ (f : ℚ → ℚ) (lo hi : ℚ) (n : ℕ), (brentSet f lo hi).1 = Value.Success →
        ((brentStep f)^[n] (brentSet f lo hi).2).lower ≤
          ((brentStep f)^[n] (brentSet f lo hi).2).root ∧
        ((brentStep f)^[n] (brentSet f lo hi).2).root ≤
          ((brentStep f)^[n] (brentSet f lo hi).2).upper) := by
  refine ⟨fun f lo hi n h => ?_, fun f lo hi n h => ?_, fun f lo hi n h => ?_⟩
  · obtain ⟨hlt, -⟩ := bracketCheck_eq_success h
    have := bisection_iter_inv f n (s := (fsolverSet f lo hi).2)
      ⟨hlt.le, by dsimp [fsolverSet]; linarith, by dsimp [fsolverSet]; linarith⟩
    exact ⟨this.2.1, this.2.2⟩
  · obtain ⟨hlt, hsg⟩ := bracketCheck_eq_success h
    have := falsePos_iter_inv f n (s := (fsolverSet f lo hi).2)
      ⟨hlt.le, by dsimp [fsolverSet]; linarith, by dsimp [fsolverSet]; linarith, hsg⟩
    exact ⟨this.2.1, this.2.2.1⟩
  · obtain ⟨hlt, -⟩ := bracketCheck_eq_success h
    have := brent_iter_inv f n (s := (brentSet f lo hi).2)
      ⟨hlt.le, by dsimp [brentSet]; linarith, by dsimp [brentSet]; linarith⟩
    exact ⟨this.2.1, this.2.2⟩

/-- C4 witness: `bracketing_root_in_bracket` applied to the bisection solver
on f(x) = x² − 2 with bracket [1, 2] after two iterations. -/
theorem bracketing_root_in_bracket_witness :
    (fsolverSet (fun x => x * x - 2) 1 2).1 = Value.Success ∧
    ((bisectionStep (fun x => x * x - 2))^[2] (fsolverSet (fun x => x * x - 2) 1 2).2).lower ≤
      ((bisectionStep (fun x => x * x - 2))^[2] (fsolverSet (fun x => x * x - 2) 1 2).2).root :=
  ⟨by norm_num [fsolverSet, bracketCheck],
    (bracketing_root_in_bracket.1 (fun x => x * x - 2) 1 2 2
      (by norm_num [fsolverSet, bracketCheck])).1⟩

/-- C5: for bisection, after `n` iterations from a valid bracket [a, b] the
interval width x_upper − x_lower equals (b − a) / 2 ^ n exactly (exact
rational arithmetic standing in for "up to floating point"). -/
theorem bisection_width_exact :
    ∀ (f : ℚ → ℚ) (lo hi : ℚ) (n : ℕ), (fsolverSet f lo hi).1 = Value.Success →
      ((bisectionStep f)^[n] (fsolverSet f lo hi).2).upper -
        ((bisectionStep f)^[n] (fsolverSet f lo hi).2).lower = (hi - lo) / 2 ^ n := by
  intro f lo hi n _
  rw [bisection_iter_width]
  rfl

/-- C5 witness: `bisection_width_exact` on f(x) = x² − 2, bracket [1, 2],
three iterations: width (2 − 1) / 2³ = 1/8. -/
theorem bisection_width_exact_witness :
    (fsolverSet (fun x => x * x - 2) 1 2).1 = Value.Success ∧
    ((bisectionStep (fun x => x * x - 2))^[3] (fsolverSet (fun x => x * x - 2) 1 2).2).upper -
      ((bisectionStep (fun x => x * x - 2))^[3] (fsolverSet (fun x => x * x - 2) 1 2).2).lower =
      ((2 : ℚ) - 1) / 2 ^ 3 :=
  ⟨by norm_num [fsolverSet, bracketCheck],
    bisection_width_exact (fun x => x * x - 2) 1 2 3 (by norm_num [fsolverSet, bracketCheck])⟩

/-- C6: for both solver families, construction returns no solver exactly when
the underlying state allocation fails (null pointer), and otherwise wraps the
fresh allocation; the result depends on nothing but the allocation outcome, so
a failure is confined to the construction call. -/
theorem solver_new_none_iff_alloc_failure :
    (∀ (t : RootFSolverType) (allocated : Option BState),
        (RootFSolver.new t allocated = none ↔ allocated = none) ∧
        ∀ st, allocated = some st → RootFSolver.new t allocated = some ⟨t, st⟩) ∧
    (∀ (t : RootFdfSolverType) (allocated : Option FdfState),
        (RootFdfSolver.new t allocated = none ↔ allocated = none) ∧
        ∀ st, allocated = some st → RootFdfSolver.new t allocated = some ⟨t, st⟩) := by
  constructor
  · intro t allocated
    cases allocated <;> simp [RootFSolver.new]
  · intro t allocated
    cases allocated <;> simp [RootFdfSolver.new]

/-- C6 witness: `solver_new_none_iff_alloc_failure` applied to successful
allocations for a bisection bracketing solver and a Newton polishing solver. -/
theorem solver_new_none_iff_alloc_failure_witness :
    RootFSolver.new RootFSolverType.bisection (some ⟨1, 2, 3 / 2⟩) =
      some ⟨RootFSolverType.bisection, ⟨1, 2, 3 / 2⟩⟩ ∧
    RootFdfSolver.new RootFdfSolverType.newton (some ⟨3 / 2⟩) =
      some ⟨RootFdfSolverType.newton, ⟨3 / 2⟩⟩ :=
  ⟨(solver_new_none_iff_alloc_failure.1 RootFSolverType.bisection (some ⟨1, 2, 3 / 2⟩)).2 _ rfl,
    (solver_new_none_iff_alloc_failure.2 RootFdfSolverType.newton (some ⟨3 / 2⟩)).2 _ rfl⟩

/-- C7: the accessors `root`, `x_lower`, `x_upper` and `name` are pure reads:
each returns the solver state unchanged, and repeating a call without an
intervening `iterate` or `set` returns the identical value. -/
theorem accessors_pure_reads :
    ∀ (s : RootFSolver) (t : RootFdfSolver),
      (RootFSolver.root s).2 = s ∧ (RootFSolver.x_lower s).2 = s ∧
      (RootFSolver.x_upper s).2 = s ∧ (RootFSolver.name s).2 = s ∧
      (RootFSolver.root ((RootFSolver.root s).2)).1 = (RootFSolver.root s).1 ∧
      (RootFSolver.x_lower ((RootFSolver.x_lower s).2)).1 = (RootFSolver.x_lower s).1 ∧
      (RootFSolver.x_upper ((RootFSolver.x_upper s).2)).1 = (RootFSolver.x_upper s).1 ∧
      (RootFSolver.name ((RootFSolver.name s).2)).1 = (RootFSolver.name s).1 ∧
      (RootFdfSolver.root t).2 = t ∧
      (RootFdfSolver.root ((RootFdfSolver.root t).2)).1 = (RootFdfSolver.root t).1 := by
  intro s t
  exact ⟨rfl, rfl, rfl, rfl, rfl, rfl, rfl, rfl, rfl, rfl⟩

/-- C8: evaluating the interpolation table at a query point outside
[xa[0], xa[n−1]] returns the domain-error code together with the not-a-number
sentinel (and the value-only wrapper propagates the sentinel), as a total
function — no crash. -/
theorem interp_eval_out_of_range :
    ∀ (xa ya : List ℚ) (x lo hi : ℚ),
      xa.head? = some lo → xa.getLast? = some hi → (x < lo ∨ hi < x) →
      interpolation.eval_e xa ya x = (Value.DomainError, GslFloat.nan) ∧
      interpolation.eval xa ya x = GslFloat.nan := by
  intro xa ya x lo hi h1 h2 h3
  have he : interpolation.eval_e xa ya x = (Value.DomainError, GslFloat.nan) := by
    unfold interpolation.eval_e
    rw [h1, h2]
    simp only [if_pos h3]
  exact ⟨he, by rw [interpolation.eval, he]⟩

/-- C8 witness: `interp_eval_out_of_range` on the table xa = [0, 1],
ya = [0, 1] at the out-of-range query x = 5. -/
theorem interp_eval_out_of_range_witness :
    ([(0 : ℚ), 1].head? = some 0) ∧ ([(0 : ℚ), 1].getLast? = some 1) ∧
    ((5 : ℚ) < 0 ∨ (1 : ℚ) < 5) ∧
    interpolation.eval_e [0, 1] [0, 1] 5 = (Value.DomainError, GslFloat.nan) ∧
    interpolation.eval [0, 1] [0, 1] 5 = GslFloat.nan :=
  ⟨rfl, rfl, Or.inr (by norm_num),
    (interp_eval_out_of_range [0, 1] [0, 1] 5 0 1 rfl rfl (Or.inr (by norm_num))).1,
    (interp_eval_out_of_range [0, 1] [0, 1] 5 0 1 rfl rfl (Or.inr (by norm_num))).2⟩

/-- C9: each trampoline of `RootFdfSolver::set` invokes exactly its matching
closure of the params triple: `inner_f` applies tuple field 0 (the f closure),
`inner_df` field 1 (the df closure) and `inner_fdf` field 2 (the fdf closure),
each at the given x, returning f(x), df(x), and the fdf-written (y, dy). -/
theorem trampolines_invoke_matching_closures :
    ∀ (f df : ℚ → ℚ) (fdf : ℚ → ℚ × ℚ) (x : ℚ),
      inner_f x (f, df, fdf) = f x ∧ inner_df x (f, df, fdf) = df x ∧
      inner_fdf x (f, df, fdf) = fdf x := by
  intro f df fdf x
  exact ⟨rfl, rfl, rfl⟩

/-- C10: `RootFdfSolver::name` returns `None` exactly when the name pointer is
null or the name bytes are not valid UTF-8, and otherwise `Some` of the
decoded name; `RootFSolver::name` (non-null pointer assumed by its type)
decodes lossily and agrees with the strict decoding whenever the bytes are
valid. -/
theorem name_decoding_strict_vs_lossy :
    (∀ p : Option (List ℕ), fdfSolverNameDecode p = none ↔
        p = none ∨ ∃ bytes, p = some bytes ∧ validUtf8 (cstrBytes bytes) = false) ∧
    (∀ (bytes cps : List ℕ), utf8DecodeStrict (cstrBytes bytes) = some cps →
        fdfSolverNameDecode (some bytes) = some cps ∧ fSolverNameDecode bytes = cps) := by
  constructor
  · intro p
    cases p with
    | none => simp [fdfSolverNameDecode]
    | some bytes =>
      simp only [fdfSolverNameDecode, validUtf8, Option.some.injEq]
      constructor
      · intro h
        exact Or.inr ⟨bytes, rfl, by simp [h]⟩
      · rintro (h | ⟨bytes', rfl, h⟩)
        · exact absurd h (by simp)
        · exact Option.not_isSome_iff_eq_none.mp (by simp [h])
  · intro bytes cps h
    refine ⟨h, ?_⟩
    exact utf8Fuel_agree (cstrBytes bytes).length (cstrBytes bytes) (cstrBytes bytes).length cps
      le_rfl le_rfl h

/-- C10 witness: `name_decoding_strict_vs_lossy` applied to the NUL-terminated
bytes of "bis" followed by junk after the terminator: both decoders yield the
same three code points. -/
theorem name_decoding_strict_vs_lossy_witness :
    utf8DecodeStrict (cstrBytes [98, 105, 115, 0, 200]) = some [98, 105, 115] ∧
    fdfSolverNameDecode (some [98, 105, 115, 0, 200]) = some [98, 105, 115] ∧
    fSolverNameDecode [98, 105, 115, 0, 200] = [98, 105, 115] :=
  ⟨by decide,
    (name_decoding_strict_vs_lossy.2 [98, 105, 115, 0, 200] [98, 105, 115] (by decide)).1,
    (name_decoding_strict_vs_lossy.2 [98, 105, 115, 0, 200] [98, 105, 115] (by decide)).2⟩

end RustGsl
